import Mathlib

/-!
Shallow embedding of the data-handling logic of `app.py`, the Canadian
immigration choropleth dashboard.  A row of the merged dataframe `df_data` is
modelled as a valuation from column names to optional rationals, `none`
standing for a missing (NaN) entry.  The pandas numeric operations used by the
two callbacks — quantile with the default linear interpolation, sum, max and
round(4) (half to even) — are modelled exactly over `ℚ`.
-/

namespace BDApp

/-- A row of the merged dataframe `df_data`: the valuation assigning to each
column name its numeric value, `none` for a missing (NaN) entry. -/
structure Row where
  cols : String → Option ℚ

/-- The four entries of the data-type dropdown, the keys of
`title_column_selector` in `app.py`. -/
inductive DataType
  | immigrantNumber
  | score
  | quintile
  | weightedScore
  deriving DecidableEq

/-- The dictionary `title_column_selector` of `app.py`. -/
def title_column_selector : DataType → String
  | DataType.immigrantNumber => "immigrant"
  | DataType.score => "Average Score"
  | DataType.quintile => "Average Quintile"
  | DataType.weightedScore => "Population Weighted Score"

/-- The seven dropdown selections feeding `update_map_and_stats`.  Dropdown
values are the column identifiers themselves; a cleared optional dropdown is
`none`. -/
structure Selection where
  period : String
  region : String
  country : Option String
  accessibility : Option String
  quantile : ℚ
  dataType : DataType
  otherIndicator : Option String

/-- Column resolution of `update_map_and_stats` (app.py lines 391-404):
data-type other than immigrant-number wins, then country, then other
indicator, then a region other than the all-immigrants column T1529, then
accessibility, then the period. -/
def resolveColumn (s : Selection) : String :=
  if s.dataType ≠ DataType.immigrantNumber then
    title_column_selector s.dataType
  else
    match s.country with
    | some c => c
    | none =>
      match s.otherIndicator with
      | some o => o
      | none =>
        if s.region ≠ "T1529" then s.region
        else
          match s.accessibility with
          | some a => a
          | none => s.period

/-- `df_data[df_data[data_column].notna()]` (app.py line 407): the rows whose
resolved column is present. -/
def presentRows (rows : List Row) (c : String) : List Row :=
  rows.filter fun r => (r.cols c).isSome

/-- The present values of the resolved column, the series the quantile is
taken over. -/
def colVals (rows : List Row) (c : String) : List ℚ :=
  (presentRows rows c).filterMap fun r => r.cols c

/-- Linear interpolation at fractional position `h` into the sorted list `s`,
the numpy and pandas default interpolation. -/
def interpAt (s : List ℚ) (h : ℚ) : ℚ :=
  s.getD (⌊h⌋).toNat 0 +
    (h - (((⌊h⌋).toNat : ℕ) : ℚ)) *
      (s.getD ((⌊h⌋).toNat + 1) (s.getD (⌊h⌋).toNat 0) - s.getD (⌊h⌋).toNat 0)

/-- pandas `Series.quantile(q)` with linear interpolation: sort the values
and interpolate at position `q * (n - 1)`. -/
def quantile (l : List ℚ) (q : ℚ) : ℚ :=
  interpAt (List.insertionSort (· ≤ ·) l) (q * ((l.length : ℚ) - 1))

/-- The quantile filter of app.py lines 407-409: among rows with a present
value in the resolved column, keep those whose value is at least the
`q`-quantile of all present values. -/
def keptRows (rows : List Row) (c : String) (q : ℚ) : List Row :=
  (presentRows rows c).filter fun r =>
    decide (quantile (colVals rows c) q ≤ (r.cols c).getD 0)

/-- The resolved-column values of a list of kept rows. -/
def valsOf (kept : List Row) (c : String) : List ℚ :=
  kept.map fun r => (r.cols c).getD 0

/-- `total_immigrants = df_plot[data_column].sum()` (app.py line 420). -/
def totalImmigrants (kept : List Row) (c : String) : ℚ :=
  (valsOf kept c).sum

/-- Round to the nearest integer, ties to even: the rounding used by numpy
and hence by pandas `Series.round`. -/
def roundHalfEven (x : ℚ) : ℤ :=
  if Int.fract x < 1 / 2 then ⌊x⌋
  else if 1 / 2 < Int.fract x then ⌊x⌋ + 1
  else if 2 ∣ ⌊x⌋ then ⌊x⌋ else ⌊x⌋ + 1

/-- pandas `Series.round(4)`. -/
def round4 (x : ℚ) : ℚ :=
  ((roundHalfEven (x * 10000) : ℤ) : ℚ) / 10000

/-- The derived `percent_of_total` column (app.py lines 420-424): the row
value divided by the total of kept values, rounded to 4 decimals, then
scaled by 100; 0 when the total is not positive. -/
def percentOfTotal (kept : List Row) (c : String) (r : Row) : ℚ :=
  if 0 < totalImmigrants kept c then
    round4 ((r.cols c).getD 0 / totalImmigrants kept c) * 100
  else 0

/-- The sum of the derived percent-of-total values over the kept rows. -/
def percentSum (kept : List Row) (c : String) : ℚ :=
  (kept.map (percentOfTotal kept c)).sum

/-- pandas `Series.max()` on a non-empty series. -/
def seriesMax : List ℚ → ℚ
  | [] => 0
  | x :: xs => xs.foldl max x

/-- The color-scale upper bound (app.py lines 414-416): the 0.99 quantile of
the kept values, replaced by their maximum when that quantile is not
positive. -/
def colorBound (kept : List Row) (c : String) : ℚ :=
  if quantile (valsOf kept c) (99 / 100) ≤ 0 then seriesMax (valsOf kept c)
  else quantile (valsOf kept c) (99 / 100)

/-- The figure returned by `update_map_and_stats`: either the placeholder
"No Data Available" choropleth or a real choropleth over the kept rows. -/
inductive MapFigure
  | noDataFigure
  | choropleth (column : String) (kept : List Row) (bound : ℚ)

/-- `df_plot.to_dict('records')` (app.py line 491): each kept row together
with its `percent_of_total` value, as cached for the click callback. -/
def cachedRecords (rows : List Row) (c : String) (q : ℚ) : List (Row × ℚ) :=
  (keptRows rows c q).map fun r => (r, percentOfTotal (keptRows rows c q) c r)

/-- `update_map_and_stats` (app.py lines 387-491): resolve the column, filter
by quantile, and either return the placeholder with no cache (when zero rows
remain, line 411-412) or the choropleth with the cached record list. -/
def update_map_and_stats (rows : List Row) (s : Selection) :
    MapFigure × Option (List (Row × ℚ)) :=
  if (keptRows rows (resolveColumn s) s.quantile).length = 0 then
    (MapFigure.noDataFigure, none)
  else
    (MapFigure.choropleth (resolveColumn s) (keptRows rows (resolveColumn s) s.quantile)
        (colorBound (keptRows rows (resolveColumn s) s.quantile) (resolveColumn s)),
      some (cachedRecords rows (resolveColumn s) s.quantile))

/-- The number shown after "% of Immigrants" in the click panel (app.py line
521): the cached `percent_of_total` value multiplied by 100 once more. -/
def displayedPercentOfImmigrants (cachedPercent : ℚ) : ℚ :=
  cachedPercent * 100

/-- The dictionary `origin_countries` of `app.py`: label and column of each
origin country of the pie chart. -/
def origin_countries : List (String × String) :=
  [("Brazil", "T1546"), ("Colombia", "T1547"), ("Haiti", "T1550"),
   ("Jamaica", "T1551"), ("Mexico", "T1552"), ("USA", "T1555"),
   ("France", "T1560"), ("Germany", "T1561"), ("Italy", "T1564"),
   ("Poland", "T1566"), ("Russia", "T1569"), ("Ukraine", "T1571"),
   ("UK", "T1572"),
   ("Egypt", "T1577"), ("Ethiopia", "T1579"), ("Morocco", "T1580"),
   ("Nigeria", "T1581"), ("Somalia", "T1582"),
   ("Afghanistan", "T1586"), ("China", "T1592"), ("India", "T1599"),
   ("Iran", "T1587"), ("Lebanon", "T1589"), ("Pakistan", "T1600"),
   ("Philippines", "T1596"), ("Syria", "T1590")]

/-- The positive present origin value of one country entry, `none`
otherwise: the entries contributing to `total_origin_sum`. -/
def posOriginVal (r : Row) (p : String × String) : Option ℚ :=
  (r.cols p.2).bind fun v => if 0 < v then some v else none

/-- `total_origin_sum` (app.py line 542): the sum of the positive present
origin-country values of the record. -/
def totalOriginSum (r : Row) : ℚ :=
  (origin_countries.filterMap (posOriginVal r)).sum

/-- An individually plotted slice (app.py lines 549-554): a positive value
whose share of the origin total exceeds 2 percent, kept with its label. -/
def bigSlice (r : Row) (p : String × String) : Option (String × ℚ) :=
  (r.cols p.2).bind fun v =>
    if 0 < v then
      if 2 < v / totalOriginSum r * 100 then some (p.1, v) else none
    else none

/-- A contribution to the others bucket (app.py lines 555-556): a positive
value whose share is at most 2 percent. -/
def smallSliceVal (r : Row) (p : String × String) : Option ℚ :=
  (r.cols p.2).bind fun v =>
    if 0 < v then
      if 2 < v / totalOriginSum r * 100 then none else some v
    else none

/-- The individually plotted slices, in catalog order; the loop of app.py
lines 549-556 runs only when the origin total is positive. -/
def pieSlicesInd (r : Row) : List (String × ℚ) :=
  if 0 < totalOriginSum r then origin_countries.filterMap (bigSlice r) else []

/-- `others_sum` after the loop (app.py lines 546-556). -/
def pieOthers (r : Row) : ℚ :=
  if 0 < totalOriginSum r then (origin_countries.filterMap (smallSliceVal r)).sum
  else 0

/-- `pie_values` after the loop: the individual slice values followed by the
others bucket, the bucket included only when positive (app.py lines
558-560). -/
def pieValues (r : Row) : List ℚ :=
  (pieSlicesInd r).map Prod.snd ++ (if 0 < pieOthers r then [pieOthers r] else [])

/-- `pie_labels` after the loop. -/
def pieLabels (r : Row) : List String :=
  (pieSlicesInd r).map Prod.fst ++
    (if 0 < pieOthers r then ["Others (<2%)"] else [])

/-- The pie branch outcome: a chart or the no-data message. -/
inductive PieOutcome
  | chart (labels : List String) (values : List ℚ)
  | noData

/-- Pie branch of `update_stats_on_click` (app.py lines 536-582): plot only
when the plotted values sum to a positive number. -/
def pieOutcome (r : Row) : PieOutcome :=
  if 0 < (pieValues r).sum then PieOutcome.chart (pieLabels r) (pieValues r)
  else PieOutcome.noData

/-- The dictionary `trend_periods_ordered` of app.py lines 589-595: the five
chronological periods, the last one the single combined column T1534. -/
def trend_periods_ordered : List (String × String) :=
  [("Before 1980", "T1530"), ("1980-1990", "T1531"), ("1991-2000", "T1532"),
   ("2001-2010", "T1533"), ("2011-2021", "T1534")]

/-- `trend_labels` after the loop of app.py lines 600-607. -/
def trendLabels : List String :=
  trend_periods_ordered.map Prod.fst

/-- `trend_values` after the loop: the five period values with 0 substituted
for each missing value. -/
def trendValues (r : Row) : List ℚ :=
  trend_periods_ordered.map fun p => (r.cols p.2).getD 0

/-- The trend branch outcome: a bar chart or the no-data message. -/
inductive TrendOutcome
  | chart (labels : List String) (values : List ℚ)
  | noData

/-- Trend branch of `update_stats_on_click` (app.py lines 609-628): plot only
when some trend value is positive. -/
def trendOutcome (r : Row) : TrendOutcome :=
  if (trendValues r).any fun v => decide (0 < v) then
    TrendOutcome.chart trendLabels (trendValues r)
  else TrendOutcome.noData

/-- Concrete witness row: only the all-immigrants column T1529 is present,
with value 30. -/
def wRow1 : Row :=
  ⟨fun c => if c = "T1529" then some 30 else none⟩

/-- Concrete witness row: only the all-immigrants column T1529 is present,
with value 10. -/
def wRow2 : Row :=
  ⟨fun c => if c = "T1529" then some 10 else none⟩

/-- Concrete witness row: every column missing. -/
def wZeroRow : Row :=
  ⟨fun _ => none⟩

/-- Concrete witness row for the pie chart: Brazil 50, Colombia 1, China
49. -/
def wPieRow : Row :=
  ⟨fun c =>
    if c = "T1546" then some 50
    else if c = "T1547" then some 1
    else if c = "T1592" then some 49
    else none⟩

/-- Concrete witness selection: immigrant-number data type, a country
selected together with a non-default region. -/
def wSel : Selection :=
  { period := "T1529", region := "T1545", country := some "T1546",
    accessibility := none, quantile := 0,
    dataType := DataType.immigrantNumber, otherIndicator := none }

/-- In a sorted list, values at smaller indices are at most values at larger
in-range indices. -/
theorem getD_mono_of_sorted {s : List ℚ} (hs : s.Sorted (· ≤ ·)) {i j : ℕ}
    (hij : i ≤ j) (hj : j < s.length) : s.getD i 0 ≤ s.getD j 0 := by
  have hi : i < s.length := Nat.lt_of_le_of_lt hij hj
  rw [List.getD_eq_getElem s 0 hi, List.getD_eq_getElem s 0 hj]
  have := hs.rel_get_of_le (a := ⟨i, hi⟩) (b := ⟨j, hj⟩) hij
  simpa using this

/-- In a sorted list, the next value with the current value as default is at
least the current value. -/
theorem getD_succ_ge {s : List ℚ} (hs : s.Sorted (· ≤ ·)) (i : ℕ) :
    s.getD i 0 ≤ s.getD (i + 1) (s.getD i 0) := by
  by_cases hlt : i + 1 < s.length
  · rw [List.getD_eq_getElem s (s.getD i 0) hlt, ← List.getD_eq_getElem s 0 hlt]
    exact getD_mono_of_sorted hs (Nat.le_succ i) hlt
  · rw [List.getD_eq_default s (s.getD i 0) (Nat.le_of_not_lt hlt)]

/-- The floor position cast back to the rationals is at most the position. -/
theorem toNat_floor_cast_le {h : ℚ} (h0 : 0 ≤ h) : (((⌊h⌋).toNat : ℕ) : ℚ) ≤ h := by
  have hz : ((⌊h⌋).toNat : ℤ) = ⌊h⌋ := Int.toNat_of_nonneg (Int.floor_nonneg.mpr h0)
  have hq : (((⌊h⌋).toNat : ℕ) : ℚ) = ((⌊h⌋ : ℤ) : ℚ) := by exact_mod_cast hz
  rw [hq]
  exact Int.floor_le h

/-- The position is less than the floor position plus one. -/
theorem lt_toNat_floor_add_one {h : ℚ} (h0 : 0 ≤ h) :
    h < (((⌊h⌋).toNat : ℕ) : ℚ) + 1 := by
  have hz : ((⌊h⌋).toNat : ℤ) = ⌊h⌋ := Int.toNat_of_nonneg (Int.floor_nonneg.mpr h0)
  have hq : (((⌊h⌋).toNat : ℕ) : ℚ) = ((⌊h⌋ : ℤ) : ℚ) := by exact_mod_cast hz
  rw [hq]
  exact Int.lt_floor_add_one h

/-- An in-range position bound: the floor of a position at most the last
index is an index of the list. -/
theorem toNat_floor_lt_length {s : List ℚ} {h : ℚ} (h0 : 0 ≤ h)
    (h1 : h ≤ (s.length : ℚ) - 1) : (⌊h⌋).toNat < s.length := by
  have hc : (((⌊h⌋).toNat : ℕ) : ℚ) ≤ h := toNat_floor_cast_le h0
  have h2 : (((⌊h⌋).toNat : ℕ) : ℚ) + 1 ≤ (s.length : ℚ) := by linarith
  have h3 : (⌊h⌋).toNat + 1 ≤ s.length := by exact_mod_cast h2
  omega

/-- Interpolation never exceeds the upper endpoint of its segment. -/
theorem interpAt_le_getD_succ {s : List ℚ} (hs : s.Sorted (· ≤ ·)) {h : ℚ}
    (h0 : 0 ≤ h) :
    interpAt s h ≤ s.getD ((⌊h⌋).toNat + 1) (s.getD (⌊h⌋).toNat 0) := by
  unfold interpAt
  nlinarith [getD_succ_ge hs (⌊h⌋).toNat, lt_toNat_floor_add_one h0]

/-- Interpolation is at least the lower endpoint of its segment. -/
theorem getD_le_interpAt {s : List ℚ} (hs : s.Sorted (· ≤ ·)) {h : ℚ}
    (h0 : 0 ≤ h) : s.getD (⌊h⌋).toNat 0 ≤ interpAt s h := by
  unfold interpAt
  nlinarith [getD_succ_ge hs (⌊h⌋).toNat, toNat_floor_cast_le h0]

/-- Interpolation into a sorted list is monotone in the position. -/
theorem interpAt_mono {s : List ℚ} (hs : s.Sorted (· ≤ ·)) {g h : ℚ}
    (hg0 : 0 ≤ g) (hgh : g ≤ h) (hh1 : h ≤ (s.length : ℚ) - 1) :
    interpAt s g ≤ interpAt s h := by
  have hh0 : 0 ≤ h := le_trans hg0 hgh
  have hi12 : (⌊g⌋).toNat ≤ (⌊h⌋).toNat := Int.toNat_le_toNat (Int.floor_le_floor hgh)
  rcases Nat.eq_or_lt_of_le hi12 with heq | hlt
  · unfold interpAt
    rw [heq]
    nlinarith [getD_succ_ge hs (⌊h⌋).toNat, hgh]
  · have hi2lt : (⌊h⌋).toNat < s.length := toNat_floor_lt_length hh0 hh1
    have hi1succ : (⌊g⌋).toNat + 1 < s.length := Nat.lt_of_le_of_lt hlt hi2lt
    have step1 : interpAt s g ≤ s.getD ((⌊g⌋).toNat + 1) (s.getD (⌊g⌋).toNat 0) :=
      interpAt_le_getD_succ hs hg0
    have step2 : s.getD ((⌊g⌋).toNat + 1) (s.getD (⌊g⌋).toNat 0) ≤ s.getD (⌊h⌋).toNat 0 := by
      rw [List.getD_eq_getElem s (s.getD (⌊g⌋).toNat 0) hi1succ,
        ← List.getD_eq_getElem s 0 hi1succ]
      exact getD_mono_of_sorted hs hlt hi2lt
    have step3 : s.getD (⌊h⌋).toNat 0 ≤ interpAt s h := getD_le_interpAt hs hh0
    linarith

/-- Interpolation at position 0 is the first element. -/
theorem interpAt_zero (s : List ℚ) : interpAt s 0 = s.getD 0 0 := by
  simp [interpAt]

/-- Interpolation at an in-range position is at most some member of the
list. -/
theorem interpAt_le_exists {s : List ℚ} (hs : s.Sorted (· ≤ ·)) {h : ℚ}
    (h0 : 0 ≤ h) (h1 : h ≤ (s.length : ℚ) - 1) :
    ∃ x ∈ s, interpAt s h ≤ x := by
  have hi2lt : (⌊h⌋).toNat < s.length := toNat_floor_lt_length h0 h1
  by_cases hsucc : (⌊h⌋).toNat + 1 < s.length
  · refine ⟨s.getD ((⌊h⌋).toNat + 1) (s.getD (⌊h⌋).toNat 0), ?_,
      interpAt_le_getD_succ hs h0⟩
    rw [List.getD_eq_getElem s _ hsucc]
    exact List.getElem_mem _
  · refine ⟨s.getD (⌊h⌋).toNat 0, ?_, ?_⟩
    · rw [List.getD_eq_getElem s 0 hi2lt]
      exact List.getElem_mem _
    · unfold interpAt
      rw [List.getD_eq_default s _ (Nat.le_of_not_lt hsucc)]
      simp

/-- The head of a sorted list bounds every member from below. -/
theorem sorted_head_le {s : List ℚ} (hs : s.Sorted (· ≤ ·)) {x : ℚ}
    (hx : x ∈ s) : s.getD 0 0 ≤ x := by
  obtain ⟨j, hj, hget⟩ := List.getElem_of_mem hx
  rw [← hget]
  rw [← List.getD_eq_getElem s 0 hj]
  exact getD_mono_of_sorted hs (Nat.zero_le j) hj

/-- The 0-quantile bounds every value of the series from below. -/
theorem quantile_zero_le {l : List ℚ} {x : ℚ} (hx : x ∈ l) : quantile l 0 ≤ x := by
  unfold quantile
  rw [zero_mul, interpAt_zero]
  exact sorted_head_le (List.sorted_insertionSort _ l)
    ((List.mem_insertionSort _).mpr hx)

/-- The quantile of a non-empty series is monotone in the quantile level on
the unit interval. -/
theorem quantile_mono {l : List ℚ} (hl : l ≠ []) {q1 q2 : ℚ} (h0 : 0 ≤ q1)
    (h12 : q1 ≤ q2) (h21 : q2 ≤ 1) : quantile l q1 ≤ quantile l q2 := by
  unfold quantile
  have hn : 1 ≤ l.length := List.length_pos.mpr hl
  have hn1 : 0 ≤ (l.length : ℚ) - 1 := by
    have : (1 : ℚ) ≤ (l.length : ℚ) := by exact_mod_cast hn
    linarith
  apply interpAt_mono (List.sorted_insertionSort _ l)
  · exact mul_nonneg h0 hn1
  · exact mul_le_mul_of_nonneg_right h12 hn1
  · rw [List.length_insertionSort]
    nlinarith [h21, hn1]

/-- The quantile of a non-empty series, at a level in the unit interval, is
at most some member of the series. -/
theorem quantile_le_exists {l : List ℚ} (hl : l ≠ []) {q : ℚ} (h0 : 0 ≤ q)
    (h1 : q ≤ 1) : ∃ x ∈ l, quantile l q ≤ x := by
  unfold quantile
  have hn : 1 ≤ l.length := List.length_pos.mpr hl
  have hn1 : 0 ≤ (l.length : ℚ) - 1 := by
    have : (1 : ℚ) ≤ (l.length : ℚ) := by exact_mod_cast hn
    linarith
  obtain ⟨x, hxs, hle⟩ := interpAt_le_exists (List.sorted_insertionSort (· ≤ ·) l)
    (mul_nonneg h0 hn1)
    (by rw [List.length_insertionSort]; nlinarith [h1, hn1])
  exact ⟨x, (List.mem_insertionSort _).mp hxs, hle⟩

/-- Filtering with a stronger predicate keeps at most as many elements. -/
theorem length_filter_mono {α : Type} {p q : α → Bool} (l : List α)
    (h : ∀ x ∈ l, p x = true → q x = true) :
    (l.filter p).length ≤ (l.filter q).length := by
  induction l with
  | nil => simp
  | cons a t ih =>
    have iht := ih fun x hx => h x (List.mem_cons_of_mem a hx)
    by_cases hp : p a = true
    · have hq := h a (List.mem_cons_self a t) hp
      simp only [List.filter_cons, hp, hq, if_true, List.length_cons]
      omega
    · simp only [List.filter_cons, Bool.false_eq_true, if_neg hp]
      by_cases hq : q a = true
      · simp only [hq, if_true, List.length_cons]
        omega
      · simp only [Bool.false_eq_true, if_neg hq]
        exact iht

/-- Half-to-even rounding moves a value by at most one half. -/
theorem abs_roundHalfEven_sub_le (x : ℚ) : |((roundHalfEven x : ℤ) : ℚ) - x| ≤ 1 / 2 := by
  have hf0 : 0 ≤ Int.fract x := Int.fract_nonneg x
  have hf1 : Int.fract x < 1 := Int.fract_lt_one x
  have hsum : ((⌊x⌋ : ℤ) : ℚ) + Int.fract x = x := Int.floor_add_fract x
  unfold roundHalfEven
  split_ifs with h1 h2 h3
  · rw [abs_le]
    constructor <;> linarith
  · rw [abs_le]
    push_cast
    constructor <;> linarith
  · have heq : Int.fract x = 1 / 2 := le_antisymm (le_of_not_lt h2) (le_of_not_lt h1)
    rw [abs_le]
    constructor <;> linarith
  · have heq : Int.fract x = 1 / 2 := le_antisymm (le_of_not_lt h2) (le_of_not_lt h1)
    rw [abs_le]
    push_cast
    constructor <;> linarith

/-- Rounding to 4 decimal places moves a value by at most `1 / 20000`. -/
theorem abs_round4_sub_le (x : ℚ) : |round4 x - x| ≤ 1 / 20000 := by
  have h := abs_roundHalfEven_sub_le (x * 10000)
  have heq : round4 x - x = (((roundHalfEven (x * 10000) : ℤ) : ℚ) - x * 10000) / 10000 := by
    unfold round4
    ring
  rw [heq, abs_div]
  rw [abs_of_nonneg (by norm_num : (0 : ℚ) ≤ 10000)]
  linarith

/-- Summing pointwise approximations: the sums differ by at most the length
times the pointwise bound. -/
theorem abs_sum_sub_sum_le {α : Type} (l : List α) (f g : α → ℚ) (ε : ℚ)
    (hε : 0 ≤ ε) (h : ∀ x ∈ l, |f x - g x| ≤ ε) :
    |(l.map f).sum - (l.map g).sum| ≤ (l.length : ℚ) * ε := by
  induction l with
  | nil => simp
  | cons a t ih =>
    have h1 := h a (List.mem_cons_self a t)
    have h2 := ih fun x hx => h x (List.mem_cons_of_mem a hx)
    simp only [List.map_cons, List.sum_cons, List.length_cons]
    have key : |f a + (t.map f).sum - (g a + (t.map g).sum)| ≤
        |f a - g a| + |(t.map f).sum - (t.map g).sum| := by
      have := abs_add (f a - g a) ((t.map f).sum - (t.map g).sum)
      have harr : f a + (t.map f).sum - (g a + (t.map g).sum) =
          f a - g a + ((t.map f).sum - (t.map g).sum) := by ring
      rw [harr]
      exact this
    have hcast : ((t.length + 1 : ℕ) : ℚ) = (t.length : ℚ) + 1 := by push_cast; ring
    rw [hcast]
    calc |f a + (t.map f).sum - (g a + (t.map g).sum)|
        ≤ |f a - g a| + |(t.map f).sum - (t.map g).sum| := key
      _ ≤ ε + (t.length : ℚ) * ε := add_le_add h1 h2
      _ = ((t.length : ℚ) + 1) * ε := by ring

/-- Pulling a common factor out of a mapped sum. -/
theorem sum_map_scale {α : Type} (l : List α) (f : α → ℚ) (b : ℚ) :
    (l.map fun x => b * f x).sum = b * (l.map f).sum := by
  induction l with
  | nil => simp
  | cons a t ih =>
    simp only [List.map_cons, List.sum_cons, ih]
    ring

/-- The seed of a left max fold bounds the fold from below. -/
theorem left_le_foldl_max (a : ℚ) (l : List ℚ) : a ≤ l.foldl max a := by
  induction l generalizing a with
  | nil => simp
  | cons b t ih => exact le_trans (le_max_left a b) (ih (max a b))

/-- Every member of a list bounds a left max fold from below. -/
theorem mem_le_foldl_max {l : List ℚ} {x : ℚ} (hx : x ∈ l) :
    ∀ a : ℚ, x ≤ l.foldl max a := by
  induction l with
  | nil => cases hx
  | cons b t ih =>
    intro a
    rw [List.foldl_cons]
    rcases List.mem_cons.mp hx with h | h
    · subst h
      exact le_trans (le_max_right a x) (left_le_foldl_max (max a x) t)
    · exact ih h (max a b)

/-- Every member of a series is at most the series maximum. -/
theorem le_seriesMax {l : List ℚ} {x : ℚ} (hx : x ∈ l) : x ≤ seriesMax l := by
  cases l with
  | nil => cases hx
  | cons b t =>
    rcases List.mem_cons.mp hx with h | h
    · exact h ▸ left_le_foldl_max b t
    · exact mem_le_foldl_max h b

/-- Characterisation of an individually plotted slice. -/
theorem bigSlice_eq_some {r : Row} {p : String × String} {lab : String} {v : ℚ} :
    bigSlice r p = some (lab, v) ↔
      r.cols p.2 = some v ∧ p.1 = lab ∧ 0 < v ∧ 2 < v / totalOriginSum r * 100 := by
  unfold bigSlice
  rcases hc : r.cols p.2 with _ | w
  · simp
  · simp only [Option.some_bind, Option.some.injEq]
    by_cases h1 : 0 < w
    · by_cases h2 : 2 < w / totalOriginSum r * 100
      · rw [if_pos h1, if_pos h2]
        constructor
        · intro he
          have hpair := Option.some_inj.mp he
          have hlab : p.1 = lab := congrArg Prod.fst hpair
          have hv : w = v := congrArg Prod.snd hpair
          subst hv
          exact ⟨rfl, hlab, h1, h2⟩
        · rintro ⟨hv, hlab, _, _⟩
          subst hv
          subst hlab
          rfl
      · rw [if_pos h1, if_neg h2]
        constructor
        · intro he
          simp at he
        · rintro ⟨hv, _, _, h2v⟩
          subst hv
          exact absurd h2v h2
    · rw [if_neg h1]
      constructor
      · intro he
        simp at he
      · rintro ⟨hv, _, h1v, _⟩
        subst hv
        exact absurd h1v h1

/-- A contribution to the others bucket is positive. -/
theorem smallSliceVal_pos {r : Row} {p : String × String} {v : ℚ}
    (h : smallSliceVal r p = some v) : 0 < v := by
  unfold smallSliceVal at h
  rcases hc : r.cols p.2 with _ | w <;> rw [hc] at h
  · simp at h
  · simp only [Option.some_bind] at h
    by_cases h1 : 0 < w
    · by_cases h2 : 2 < w / totalOriginSum r * 100
      · rw [if_pos h1, if_pos h2] at h
        simp at h
      · rw [if_pos h1, if_neg h2] at h
        have hv := Option.some_inj.mp h
        exact hv ▸ h1
    · rw [if_neg h1] at h
      simp at h

/-- The positive origin values split exactly into the individually plotted
slices and the others contributions. -/
theorem posSum_split (r : Row) (l : List (String × String)) :
    (l.filterMap (posOriginVal r)).sum =
      ((l.filterMap (bigSlice r)).map Prod.snd).sum +
        (l.filterMap (smallSliceVal r)).sum := by
  induction l with
  | nil => simp
  | cons p t ih =>
    simp only [List.filterMap_cons]
    rcases hc : r.cols p.2 with _ | w
    · simp only [posOriginVal, bigSlice, smallSliceVal, hc, Option.none_bind]
      exact ih
    · by_cases h1 : 0 < w
      · by_cases h2 : 2 < w / totalOriginSum r * 100
        · simp only [posOriginVal, bigSlice, smallSliceVal, hc, Option.some_bind,
            if_pos h1, if_pos h2, List.map_cons, List.sum_cons]
          rw [ih]
          ring
        · simp only [posOriginVal, bigSlice, smallSliceVal, hc, Option.some_bind,
            if_pos h1, if_neg h2, List.sum_cons]
          rw [ih]
          ring
      · simp only [posOriginVal, bigSlice, smallSliceVal, hc, Option.some_bind,
          if_neg h1]
        exact ih

/-- Claim C1: for every combination of the seven selection inputs the column
resolver returns exactly one column identifier, by the fixed first-match-wins
precedence: a data type other than immigrant-number uses its mapped column;
else a selected country its column; else a selected other indicator its
column; else a region other than the all-immigrants sentinel T1529 its
column; else a selected accessibility mode its column; else the period
column.  In particular a selected country overrides a non-default region,
and the result is a function of the selections alone. -/
theorem resolver_precedence (s : Selection) :
    (s.dataType ≠ DataType.immigrantNumber →
      resolveColumn s = title_column_selector s.dataType) ∧
    (s.dataType = DataType.immigrantNumber → ∀ c, s.country = some c →
      resolveColumn s = c) ∧
    (s.dataType = DataType.immigrantNumber → s.country = none →
      ∀ o, s.otherIndicator = some o → resolveColumn s = o) ∧
    (s.dataType = DataType.immigrantNumber → s.country = none →
      s.otherIndicator = none → s.region ≠ "T1529" →
      resolveColumn s = s.region) ∧
    (s.dataType = DataType.immigrantNumber → s.country = none →
      s.otherIndicator = none → s.region = "T1529" →
      ∀ a, s.accessibility = some a → resolveColumn s = a) ∧
    (s.dataType = DataType.immigrantNumber → s.country = none →
      s.otherIndicator = none → s.region = "T1529" → s.accessibility = none →
      resolveColumn s = s.period) ∧
    (s.dataType = DataType.immigrantNumber → ∀ c, s.country = some c →
      s.region ≠ "T1529" → resolveColumn s = c) := by
  refine ⟨?_, ?_, ?_, ?_, ?_, ?_, ?_⟩
  · intro h1
    simp [resolveColumn, h1]
  · intro h1 c h2
    simp [resolveColumn, h1, h2]
  · intro h1 h2 o h3
    simp [resolveColumn, h1, h2, h3]
  · intro h1 h2 h3 h4
    simp [resolveColumn, h1, h2, h3, h4]
  · intro h1 h2 h3 h4 a h5
    simp [resolveColumn, h1, h2, h3, h4, h5]
  · intro h1 h2 h3 h4 h5
    simp [resolveColumn, h1, h2, h3, h4, h5]
  · intro h1 c h2 _
    simp [resolveColumn, h1, h2]

/-- Witness for C1: with immigrant-number data type, country Brazil (T1546)
and the non-default region Americas (T1545) selected, the resolver picks the
country column. -/
theorem resolver_precedence_witness : resolveColumn wSel = "T1546" :=
  (resolver_precedence wSel).2.2.2.2.2.2 rfl "T1546" rfl (by decide)

/-- Claim C2: the filter stage drops exactly the rows whose resolved column
is missing, computes the selected quantile of the remaining values as a
threshold, and keeps exactly the rows whose value is at least the threshold;
with quantile 0 every row with a present value is kept. -/
theorem quantile_filter_spec (rows : List Row) (c : String) (q : ℚ) :
    keptRows rows c q = (presentRows rows c).filter
      (fun r => decide (quantile (colVals rows c) q ≤ (r.cols c).getD 0)) ∧
    (q = 0 → keptRows rows c q = presentRows rows c) := by
  constructor
  · rfl
  · intro hq
    subst hq
    apply List.filter_eq_self.mpr
    intro r hr
    rw [decide_eq_true_eq]
    have hsome : (r.cols c).isSome = true := (List.mem_filter.mp hr).2
    obtain ⟨w, hw⟩ := Option.isSome_iff_exists.mp hsome
    have hwmem : w ∈ colVals rows c := List.mem_filterMap.mpr ⟨r, hr, hw⟩
    rw [hw]
    simpa using quantile_zero_le hwmem

/-- Witness for C2: at quantile 0 on two rows with values 30 and 10 in
T1529, both rows are kept. -/
theorem quantile_filter_spec_witness :
    keptRows [wRow1, wRow2] "T1529" 0 = presentRows [wRow1, wRow2] "T1529" :=
  (quantile_filter_spec [wRow1, wRow2] "T1529" 0).2 rfl

/-- Claim C8: when the quantile filter leaves zero rows, the map handler
returns the placeholder no-data figure and caches no row set. -/
theorem no_data_map_spec (rows : List Row) (s : Selection)
    (h : (keptRows rows (resolveColumn s) s.quantile).length = 0) :
    update_map_and_stats rows s = (MapFigure.noDataFigure, none) := by
  unfold update_map_and_stats
  rw [if_pos h]

/-- Witness for C8: the selection wSel resolves to T1546, which is missing
in the all-missing row, so the handler returns the placeholder and no
cache. -/
theorem no_data_map_spec_witness :
    (keptRows [wZeroRow] (resolveColumn wSel) wSel.quantile).length = 0 ∧
    update_map_and_stats [wZeroRow] wSel = (MapFigure.noDataFigure, none) :=
  ⟨by norm_num [keptRows, presentRows, colVals, wZeroRow, resolveColumn, wSel,
      List.filter],
   no_data_map_spec [wZeroRow] wSel
     (by norm_num [keptRows, presentRows, colVals, wZeroRow, resolveColumn, wSel,
       List.filter])⟩

/-- Claim C10: the click panel multiplies the cached percent-of-total value
by 100 once more, although that value is already a 0-100 percentage; the
displayed number is round4 of the share, times 100, times 100. -/
theorem displayed_percent_spec (rows : List Row) (c : String) (q : ℚ) (r : Row)
    (hT : 0 < totalImmigrants (keptRows rows c q) c) :
    displayedPercentOfImmigrants (percentOfTotal (keptRows rows c q) c r) =
      round4 ((r.cols c).getD 0 / totalImmigrants (keptRows rows c q) c) * 100 * 100 ∧
    displayedPercentOfImmigrants (percentOfTotal (keptRows rows c q) c r) =
      100 * percentOfTotal (keptRows rows c q) c r := by
  unfold displayedPercentOfImmigrants percentOfTotal
  rw [if_pos hT]
  exact ⟨rfl, mul_comm _ 100⟩

/-- Witness for C10: on the two-row dataset at quantile 0, the kept total 40
is positive and the displayed number is the doubly scaled rounded share. -/
theorem displayed_percent_spec_witness :
    0 < totalImmigrants (keptRows [wRow1, wRow2] "T1529" 0) "T1529" ∧
    displayedPercentOfImmigrants
        (percentOfTotal (keptRows [wRow1, wRow2] "T1529" 0) "T1529" wRow1) =
      round4 ((wRow1.cols "T1529").getD 0 /
          totalImmigrants (keptRows [wRow1, wRow2] "T1529" 0) "T1529") * 100 * 100 :=
  ⟨by norm_num [totalImmigrants, valsOf, keptRows, presentRows, colVals, quantile,
      interpAt, wRow1, wRow2, List.insertionSort, List.orderedInsert,
      List.filter_cons, List.filter_nil, List.filterMap],
   (displayed_percent_spec [wRow1, wRow2] "T1529" 0 wRow1
     (by norm_num [totalImmigrants, valsOf, keptRows, presentRows, colVals, quantile,
       interpAt, wRow1, wRow2, List.insertionSort, List.orderedInsert,
       List.filter_cons, List.filter_nil, List.filterMap])).1⟩

/-- Claim C5: for every cached region record the trend series has exactly 5
entries in the fixed chronological order pre-1980, 1980-1990, 1991-2000,
2001-2010, 2011-2021, the last read directly from the single combined column
T1534 and not summed from sub-periods, with 0 substituted for each missing
value; when all five extracted values are zero the no-data message is
reported instead of a plot. -/
theorem trend_series_spec (r : Row) :
    (trendValues r).length = 5 ∧
    trendLabels = ["Before 1980", "1980-1990", "1991-2000", "2001-2010",
      "2011-2021"] ∧
    trendValues r = [(r.cols "T1530").getD 0, (r.cols "T1531").getD 0,
      (r.cols "T1532").getD 0, (r.cols "T1533").getD 0,
      (r.cols "T1534").getD 0] ∧
    ((∀ v ∈ trendValues r, v = 0) → trendOutcome r = TrendOutcome.noData) := by
  refine ⟨rfl, rfl, rfl, ?_⟩
  intro h
  unfold trendOutcome
  rw [if_neg]
  intro hany
  rcases List.any_eq_true.mp hany with ⟨v, hv, hpos⟩
  rw [decide_eq_true_eq] at hpos
  rw [h v hv] at hpos
  exact lt_irrefl 0 hpos

/-- Witness for C5: on the all-missing row every trend value is 0 and the
trend branch reports no data. -/
theorem trend_series_spec_witness :
    (∀ v ∈ trendValues wZeroRow, v = 0) ∧
    trendOutcome wZeroRow = TrendOutcome.noData :=
  ⟨by norm_num [trendValues, trend_periods_ordered, wZeroRow],
   (trend_series_spec wZeroRow).2.2.2
     (by norm_num [trendValues, trend_periods_ordered, wZeroRow])⟩

/-- Claim C6: quantile filtering is monotone: for quantile levels
q1 ≤ q2 inside the unit interval, the rows kept at q2 are at most as many as
the rows kept at q1. -/
theorem quantile_filter_monotone (rows : List Row) (c : String) (q1 q2 : ℚ)
    (h0 : 0 ≤ q1) (h12 : q1 ≤ q2) (h21 : q2 ≤ 1) :
    (keptRows rows c q2).length ≤ (keptRows rows c q1).length := by
  rcases hp : presentRows rows c with _ | ⟨r, t⟩
  · unfold keptRows
    rw [hp]
    simp
  · have hrmem : r ∈ presentRows rows c := by
      rw [hp]
      exact List.mem_cons_self r t
    have hsome : (r.cols c).isSome = true := (List.mem_filter.mp hrmem).2
    obtain ⟨w, hw⟩ := Option.isSome_iff_exists.mp hsome
    have hwmem : w ∈ colVals rows c := List.mem_filterMap.mpr ⟨r, hrmem, hw⟩
    have hvne : colVals rows c ≠ [] := List.ne_nil_of_mem hwmem
    unfold keptRows
    apply length_filter_mono
    intro x _ hx2
    rw [decide_eq_true_eq] at hx2 ⊢
    exact le_trans (quantile_mono hvne h0 h12 h21) hx2

/-- Witness for C6: on the two-row dataset, at most as many rows are kept at
quantile 99/100 as at quantile 0. -/
theorem quantile_filter_monotone_witness :
    (0 : ℚ) ≤ 0 ∧ (0 : ℚ) ≤ 99 / 100 ∧ (99 / 100 : ℚ) ≤ 1 ∧
    (keptRows [wRow1, wRow2] "T1529" (99 / 100)).length ≤
      (keptRows [wRow1, wRow2] "T1529" 0).length :=
  ⟨le_refl 0, by norm_num, by norm_num,
   quantile_filter_monotone [wRow1, wRow2] "T1529" 0 (99 / 100) (le_refl 0)
     (by norm_num) (by norm_num)⟩

/-- Claim C7: for a non-empty kept row set the color-scale upper bound is the
0.99 quantile of the kept values, except that it is the maximum of the kept
values when that quantile is not positive; the maximum bounds every kept
value. -/
theorem color_bound_spec (rows : List Row) (c : String) (q : ℚ)
    (h : 0 < (keptRows rows c q).length) :
    (0 < quantile (valsOf (keptRows rows c q) c) (99 / 100) →
      colorBound (keptRows rows c q) c =
        quantile (valsOf (keptRows rows c q) c) (99 / 100)) ∧
    (quantile (valsOf (keptRows rows c q) c) (99 / 100) ≤ 0 →
      colorBound (keptRows rows c q) c =
        seriesMax (valsOf (keptRows rows c q) c)) ∧
    (∀ x ∈ valsOf (keptRows rows c q) c,
      x ≤ seriesMax (valsOf (keptRows rows c q) c)) := by
  refine ⟨?_, ?_, ?_⟩
  · intro hpos
    unfold colorBound
    rw [if_neg (not_le.mpr hpos)]
  · intro hle
    unfold colorBound
    rw [if_pos hle]
  · intro x hx
    exact le_seriesMax hx

/-- Witness for C7: the two-row dataset at quantile 0 keeps both rows, and
every kept value is at most the series maximum. -/
theorem color_bound_spec_witness :
    0 < (keptRows [wRow1, wRow2] "T1529" 0).length ∧
    (∀ x ∈ valsOf (keptRows [wRow1, wRow2] "T1529" 0) "T1529",
      x ≤ seriesMax (valsOf (keptRows [wRow1, wRow2] "T1529" 0) "T1529")) :=
  ⟨by norm_num [keptRows, presentRows, colVals, quantile, interpAt, wRow1, wRow2,
      List.insertionSort, List.orderedInsert, List.filter_cons, List.filter_nil,
      List.filterMap],
   (color_bound_spec [wRow1, wRow2] "T1529" 0
     (by norm_num [keptRows, presentRows, colVals, quantile, interpAt, wRow1,
       wRow2, List.insertionSort, List.orderedInsert, List.filter_cons,
       List.filter_nil, List.filterMap])).2.2⟩

/-- Claim C9: whenever at least one row has a present value in the resolved
column and the quantile level lies in the unit interval, the kept row set is
non-empty, so the no-data branch of the map handler is reachable only when
the resolved column is missing in every row. -/
theorem kept_nonempty_spec (rows : List Row) (c : String) (q : ℚ)
    (hp : 0 < (presentRows rows c).length) (h0 : 0 ≤ q) (h1 : q ≤ 1) :
    0 < (keptRows rows c q).length := by
  obtain ⟨r0, hr0⟩ := List.exists_mem_of_length_pos hp
  have hsome : (r0.cols c).isSome = true := (List.mem_filter.mp hr0).2
  obtain ⟨w, hw⟩ := Option.isSome_iff_exists.mp hsome
  have hwmem : w ∈ colVals rows c := List.mem_filterMap.mpr ⟨r0, hr0, hw⟩
  have hvne : colVals rows c ≠ [] := List.ne_nil_of_mem hwmem
  obtain ⟨x, hxmem, hxle⟩ := quantile_le_exists hvne h0 h1
  obtain ⟨r, hr, hrx⟩ := List.mem_filterMap.mp hxmem
  have hkept : r ∈ keptRows rows c q := by
    unfold keptRows
    rw [List.mem_filter]
    refine ⟨hr, ?_⟩
    rw [decide_eq_true_eq, hrx]
    simpa using hxle
  exact List.length_pos_of_mem hkept

/-- Witness for C9: both rows have a present T1529 value, so at quantile 1/2
the kept row set is non-empty. -/
theorem kept_nonempty_spec_witness :
    0 < (presentRows [wRow1, wRow2] "T1529").length ∧
    0 < (keptRows [wRow1, wRow2] "T1529" (1 / 2)).length :=
  ⟨by norm_num [presentRows, wRow1, wRow2, List.filter_cons, List.filter_nil],
   kept_nonempty_spec [wRow1, wRow2] "T1529" (1 / 2)
     (by norm_num [presentRows, wRow1, wRow2, List.filter_cons, List.filter_nil])
     (by norm_num) (by norm_num)⟩

/-- Claim C3: when the sum of the kept values is positive, each kept row's
derived value is its value divided by the total, rounded to 4 decimal
places, then multiplied by 100, and the derived values over all kept rows
sum to 100 within the rounding tolerance of 1/200 per row; when the total is
not positive every derived value is 0. -/
theorem percent_of_total_spec (rows : List Row) (c : String) (q : ℚ) :
    (0 < totalImmigrants (keptRows rows c q) c →
      (∀ r ∈ keptRows rows c q,
        percentOfTotal (keptRows rows c q) c r =
          round4 ((r.cols c).getD 0 / totalImmigrants (keptRows rows c q) c) * 100) ∧
      |percentSum (keptRows rows c q) c - 100| ≤
        ((keptRows rows c q).length : ℚ) * (1 / 200)) ∧
    (totalImmigrants (keptRows rows c q) c ≤ 0 →
      ∀ r ∈ keptRows rows c q, percentOfTotal (keptRows rows c q) c r = 0) := by
  constructor
  · intro hT
    set k := keptRows rows c q with hk
    set T := totalImmigrants k c with hTdef
    have hTne : T ≠ 0 := ne_of_gt hT
    have hper : ∀ r ∈ k, percentOfTotal k c r =
        round4 ((r.cols c).getD 0 / T) * 100 := by
      intro r _
      unfold percentOfTotal
      rw [if_pos hT]
    refine ⟨hper, ?_⟩
    have hgsum : (k.map fun r => 100 / T * (r.cols c).getD 0).sum = 100 := by
      rw [sum_map_scale k (fun r => (r.cols c).getD 0) (100 / T)]
      have hval : (k.map fun r => (r.cols c).getD 0).sum = T := rfl
      rw [hval]
      exact div_mul_cancel₀ 100 hTne
    have herr : ∀ r ∈ k,
        |percentOfTotal k c r - 100 / T * (r.cols c).getD 0| ≤ 1 / 200 := by
      intro r hr
      rw [hper r hr]
      have h1 := abs_round4_sub_le ((r.cols c).getD 0 / T)
      have heq : round4 ((r.cols c).getD 0 / T) * 100 - 100 / T * (r.cols c).getD 0 =
          100 * (round4 ((r.cols c).getD 0 / T) - (r.cols c).getD 0 / T) := by
        ring
      rw [heq, abs_mul, abs_of_nonneg (by norm_num : (0 : ℚ) ≤ 100)]
      linarith
    have hmain := abs_sum_sub_sum_le k (percentOfTotal k c)
      (fun r => 100 / T * (r.cols c).getD 0) (1 / 200) (by norm_num) herr
    rw [hgsum] at hmain
    exact hmain
  · intro hT r _
    unfold percentOfTotal
    rw [if_neg (not_lt.mpr hT)]

/-- Witness for C3: on the two-row dataset at quantile 0 the kept total 40 is
positive and the percent values sum to 100 within tolerance. -/
theorem percent_of_total_spec_witness :
    0 < totalImmigrants (keptRows [wRow1, wRow2] "T1529" 0) "T1529" ∧
    |percentSum (keptRows [wRow1, wRow2] "T1529" 0) "T1529" - 100| ≤
      ((keptRows [wRow1, wRow2] "T1529" 0).length : ℚ) * (1 / 200) :=
  ⟨by norm_num [totalImmigrants, valsOf, keptRows, presentRows, colVals, quantile,
      interpAt, wRow1, wRow2, List.insertionSort, List.orderedInsert,
      List.filter_cons, List.filter_nil, List.filterMap],
   ((percent_of_total_spec [wRow1, wRow2] "T1529" 0).1
     (by norm_num [totalImmigrants, valsOf, keptRows, presentRows, colVals,
       quantile, interpAt, wRow1, wRow2, List.insertionSort, List.orderedInsert,
       List.filter_cons, List.filter_nil, List.filterMap])).2⟩

/-- Claim C4: when the record's positive origin-country values have a
positive sum, the individually plotted slices are exactly the countries
whose share of that sum exceeds 2 percent, plotted by absolute value; every
plotted slice value (the others bucket included) is positive; the plotted
values sum to the origin total; and the pie branch plots the chart.  When no
origin-country value is positive, the no-data message is reported instead. -/
theorem pie_breakdown_spec (r : Row) :
    (0 < totalOriginSum r →
      (∀ lab v, (lab, v) ∈ pieSlicesInd r ↔
        ∃ p ∈ origin_countries, r.cols p.2 = some v ∧ p.1 = lab ∧ 0 < v ∧
          2 < v / totalOriginSum r * 100) ∧
      (∀ v ∈ pieValues r, 0 < v) ∧
      (pieValues r).sum = totalOriginSum r ∧
      pieOutcome r = PieOutcome.chart (pieLabels r) (pieValues r)) ∧
    ((∀ p ∈ origin_countries, ∀ v, r.cols p.2 = some v → v ≤ 0) →
      pieOutcome r = PieOutcome.noData) := by
  constructor
  · intro hT
    have hInd : pieSlicesInd r = origin_countries.filterMap (bigSlice r) := by
      unfold pieSlicesInd
      rw [if_pos hT]
    have hOth : pieOthers r = (origin_countries.filterMap (smallSliceVal r)).sum := by
      unfold pieOthers
      rw [if_pos hT]
    have hOthNonneg : 0 ≤ (origin_countries.filterMap (smallSliceVal r)).sum := by
      apply List.sum_nonneg
      intro x hx
      obtain ⟨p, _, hps⟩ := List.mem_filterMap.mp hx
      exact le_of_lt (smallSliceVal_pos hps)
    have hchar : ∀ lab v, (lab, v) ∈ pieSlicesInd r ↔
        ∃ p ∈ origin_countries, r.cols p.2 = some v ∧ p.1 = lab ∧ 0 < v ∧
          2 < v / totalOriginSum r * 100 := by
      intro lab v
      rw [hInd, List.mem_filterMap]
      constructor
      · rintro ⟨p, hp, hbig⟩
        exact ⟨p, hp, bigSlice_eq_some.mp hbig⟩
      · rintro ⟨p, hp, hprops⟩
        exact ⟨p, hp, bigSlice_eq_some.mpr hprops⟩
    have hkey := posSum_split r origin_countries
    have hsum : (pieValues r).sum = totalOriginSum r := by
      unfold pieValues
      rw [hInd, List.sum_append]
      by_cases ho : 0 < pieOthers r
      · rw [if_pos ho]
        rw [List.sum_cons, List.sum_nil, add_zero, hOth]
        unfold totalOriginSum
        linarith [hkey]
      · rw [if_neg ho, List.sum_nil, add_zero]
        have hzero : pieOthers r = 0 :=
          le_antisymm (not_lt.mp ho) (hOth ▸ hOthNonneg)
        rw [hOth] at hzero
        unfold totalOriginSum
        linarith [hkey, hzero]
    have hpos : ∀ v ∈ pieValues r, 0 < v := by
      intro v hv
      unfold pieValues at hv
      rcases List.mem_append.mp hv with hv1 | hv2
      · rw [hInd] at hv1
        obtain ⟨sl, hsl, hsnd⟩ := List.mem_map.mp hv1
        obtain ⟨lab2, v2⟩ := sl
        obtain ⟨p, _, hbig⟩ := List.mem_filterMap.mp hsl
        have hconj := bigSlice_eq_some.mp hbig
        have hv2 : v2 = v := hsnd
        subst hv2
        exact hconj.2.2.1
      · by_cases ho : 0 < pieOthers r
        · rw [if_pos ho, List.mem_singleton] at hv2
          exact hv2 ▸ ho
        · rw [if_neg ho] at hv2
          cases hv2
    have hchart : pieOutcome r = PieOutcome.chart (pieLabels r) (pieValues r) := by
      unfold pieOutcome
      rw [if_pos (hsum.symm ▸ hT)]
    exact ⟨hchar, hpos, hsum, hchart⟩
  · intro hall
    have hT0 : totalOriginSum r = 0 := by
      unfold totalOriginSum
      rw [List.filterMap_eq_nil_iff.mpr ?_]
      · rfl
      intro p hp
      unfold posOriginVal
      rcases hc : r.cols p.2 with _ | w
      · rfl
      · rw [Option.some_bind]
        rw [if_neg (not_lt.mpr (hall p hp w hc))]
    have hv : pieValues r = [] := by
      unfold pieValues pieSlicesInd pieOthers
      rw [hT0]
      simp
    unfold pieOutcome
    rw [hv]
    simp

/-- Witness for C4: on a record with Brazil 50, Colombia 1, China 49 the
origin total 100 is positive and the plotted slice values sum to it. -/
theorem pie_breakdown_spec_witness :
    0 < totalOriginSum wPieRow ∧
    (pieValues wPieRow).sum = totalOriginSum wPieRow :=
  ⟨by simp [totalOriginSum, origin_countries, posOriginVal, wPieRow,
      List.filterMap, Option.bind]; norm_num,
   ((pie_breakdown_spec wPieRow).1
     (by simp [totalOriginSum, origin_countries, posOriginVal, wPieRow,
       List.filterMap, Option.bind]; norm_num)).2.2.1⟩

end BDApp
